import Mathlib

/-!
# LazyLauncher — shallow embedding and verification

A shallow embedding of the LazyLauncher shortcut-management component
(`lazylauncher/utils.py`, `lazylauncher/config.py`, `lazylauncher/creator.py`)
together with proofs settling the frozen specification claims.

Python strings are modeled as `String` / `List Char`; the filesystem is an
explicit record of files, directories and executable bits threaded through the
stateful operations.  Python's `str.strip()` is modeled on ASCII whitespace,
`str.lower()` on ASCII letters (all inputs relevant to the program are ASCII).
-/

namespace LazyLauncher

/-! ## Basic string helpers (models of Python `str` primitives) -/

/-- ASCII whitespace, the characters stripped by Python `str.strip()`
(restricted to ASCII: `' '`, `'\t'`, `'\n'`, `'\r'`, `'\x0b'`, `'\x0c'`). -/
def isPySpace (c : Char) : Bool :=
  c = ' ' || c = '\t' || c = '\n' || c = '\r' || c = '\x0b' || c = '\x0c'

/-- Drop matching characters from the right end of a list
(the right half of Python `str.strip`). -/
def rdropWhileP (p : Char → Bool) : List Char → List Char
  | [] => []
  | a :: t =>
    let r := rdropWhileP p t
    if r.isEmpty then (if p a then [] else [a]) else a :: r

/-- Python `str.strip(chars)`: drop characters satisfying `p` from both ends. -/
def strip2 (p : Char → Bool) (l : List Char) : List Char :=
  rdropWhileP p (l.dropWhile p)

/-- Python `str.strip()` (no argument) on a character list. -/
def pyStripL (l : List Char) : List Char := strip2 isPySpace l

/-- Python `str.strip()` on a `String`. -/
def pyStripS (s : String) : String := String.mk (pyStripL s.data)

/-- Split a list at the first occurrence of `c`
(Python `str.split(c, 1)` / `str.find(c)`); `none` when `c` is absent. -/
def splitOnceChar (c : Char) : List Char → Option (List Char × List Char)
  | [] => none
  | a :: t =>
    if a = c then some ([], t)
    else
      match splitOnceChar c t with
      | some (x, y) => some (a :: x, y)
      | none => none

theorem splitOnceChar_snd_lt (c : Char) :
    ∀ (l x y : List Char), splitOnceChar c l = some (x, y) → y.length < l.length := by
  intro l
  induction l with
  | nil => intro x y h; simp [splitOnceChar] at h
  | cons a t ih =>
    intro x y h
    simp only [splitOnceChar] at h
    split at h
    · simp at h
      simp [← h.2]
    · cases ht : splitOnceChar c t with
      | none => rw [ht] at h; simp at h
      | some q =>
        rw [ht] at h
        obtain ⟨qx, qy⟩ := q
        simp at h
        have := ih qx qy ht
        simp [← h.2]
        omega

/-- Python `str.split(c)` (all occurrences, keeping empty pieces). -/
def splitAllChar (c : Char) (l : List Char) : List (List Char) :=
  match h : splitOnceChar c l with
  | some (x, y) => x :: splitAllChar c y
  | none => [l]
termination_by l.length
decreasing_by exact splitOnceChar_snd_lt c l x y h

/-- ASCII lower-casing of a character list (Python `str.lower()` on ASCII). -/
def lowerL (l : List Char) : List Char := l.map Char.toLower

/-! ## `utils.sanitize_filename` -/

/-- The character class kept by `sanitize_filename`'s regular expression
`[^a-zA-Z0-9._-]` (a kept character is alphanumeric or `.` `_` `-`). -/
def isAllowedChar (c : Char) : Bool :=
  ('a' ≤ c && c ≤ 'z') || ('A' ≤ c && c ≤ 'Z') || ('0' ≤ c && c ≤ '9') ||
    c = '.' || c = '_' || c = '-'

/-- `re.sub(r'[^a-zA-Z0-9._-]', '_', s)`. -/
def subClass (l : List Char) : List Char :=
  l.map (fun c => if isAllowedChar c then c else '_')

/-- `re.sub(r'_+', '_', s)`: collapse each run of underscores to one. -/
def collapseU : List Char → List Char
  | [] => []
  | [c] => [c]
  | a :: b :: t =>
    if a = '_' && b = '_' then collapseU (b :: t) else a :: collapseU (b :: t)

/-- A character stripped by `str.strip('_.')`. -/
def isEdgeBad (c : Char) : Bool := c = '_' || c = '.'

/-- The cleaning phase of `sanitize_filename` (utils.py lines 77-92):
strip whitespace, replace disallowed characters by `_`, collapse `_` runs,
strip edge `_`/`.`, and substitute `"unnamed"` for an empty result. -/
def cleanPhase (l : List Char) : List Char :=
  if (strip2 isEdgeBad (collapseU (subClass (pyStripL l)))).isEmpty then "unnamed".data
  else strip2 isEdgeBad (collapseU (subClass (pyStripL l)))

/-- The characters after the last `'.'` (the `ext` of
`sanitized.rsplit('.', 1)`). -/
def extOf (l : List Char) : List Char :=
  (l.reverse.takeWhile (fun c => c ≠ '.')).reverse

/-- The length-limiting phase of `sanitize_filename` (utils.py lines 96-105):
truncate to 100 characters, preserving a trailing extension when the reserved
stem length `100 - len(ext) - 1` is positive. -/
def truncate100 (s : List Char) : List Char :=
  if s.length > 100 then
    if s.contains '.' then
      if 0 < 100 - ((extOf s).length + 1) then
        (s.take (s.length - (extOf s).length - 1)).take (100 - (extOf s).length - 1) ++
          '.' :: extOf s
      else s.take 100
    else s.take 100
  else s

/-- `utils.sanitize_filename` on a character list.  An empty input returns
`"unnamed"` immediately (Python `if not filename`). -/
def sanitizeL (l : List Char) : List Char :=
  if l.isEmpty then "unnamed".data else truncate100 (cleanPhase l)

/-- `utils.sanitize_filename`. -/
def sanitize_filename (s : String) : String := String.mk (sanitizeL s.data)

example : sanitize_filename "My Cool App!" = "My_Cool_App" := by decide
example : sanitize_filename "" = "unnamed" := by decide
example : sanitize_filename "___" = "unnamed" := by decide

/-! ## Lemmas about the string helpers -/

theorem mem_of_head? {α : Type} {l : List α} {c : α} (h : l.head? = some c) : c ∈ l := by
  cases l with
  | nil => simp at h
  | cons a t => simp at h; simp [h]

theorem mem_of_getLast? {α : Type} {l : List α} {c : α} (h : l.getLast? = some c) : c ∈ l := by
  induction l with
  | nil => simp at h
  | cons a t ih =>
    cases t with
    | nil => simp at h; simp [h]
    | cons b t' =>
      rw [List.getLast?_cons_cons] at h
      exact List.mem_cons_of_mem a (ih h)

theorem getLast?_cons_of_ne_nil {α : Type} {t : List α} (a : α) (h : t ≠ []) :
    (a :: t).getLast? = t.getLast? := by
  cases t with
  | nil => exact absurd rfl h
  | cons b t' => exact List.getLast?_cons_cons

theorem head?_append_of_ne_nil {α : Type} {x y : List α} (h : x ≠ []) :
    (x ++ y).head? = x.head? := by
  cases x with
  | nil => exact absurd rfl h
  | cons a t => simp

theorem take_ne_nil {α : Type} {l : List α} {n : ℕ} (hl : l ≠ []) (hn : n ≠ 0) :
    l.take n ≠ [] := by
  cases l with
  | nil => exact absurd rfl hl
  | cons a t => cases n with
    | zero => exact absurd rfl hn
    | succ m => simp

theorem head?_take {α : Type} {l : List α} {n : ℕ} {c : α}
    (h : (l.take n).head? = some c) : l.head? = some c := by
  cases l with
  | nil => simp at h
  | cons a t =>
    cases n with
    | zero => simp at h
    | succ m => simpa using h

theorem mem_rdropWhileP {p : Char → Bool} {l : List Char} {c : Char}
    (h : c ∈ rdropWhileP p l) : c ∈ l := by
  induction l with
  | nil => simpa [rdropWhileP] using h
  | cons a t ih =>
    simp only [rdropWhileP] at h
    split at h
    · split at h
      · simp at h
      · simp at h; simp [h]
    · rcases List.mem_cons.mp h with rfl | hm
      · exact List.mem_cons_self _ _
      · exact List.mem_cons_of_mem a (ih hm)

theorem head?_rdropWhileP {p : Char → Bool} {l : List Char} {c : Char}
    (h : (rdropWhileP p l).head? = some c) : l.head? = some c := by
  cases l with
  | nil => simp [rdropWhileP] at h
  | cons a t =>
    simp only [rdropWhileP] at h
    split at h
    · split at h
      · simp at h
      · simp at h; simp [h]
    · simpa using h

theorem getLast?_rdropWhileP {p : Char → Bool} {l : List Char} {c : Char}
    (h : (rdropWhileP p l).getLast? = some c) : p c = false := by
  induction l with
  | nil => simp [rdropWhileP] at h
  | cons a t ih =>
    simp only [rdropWhileP] at h
    split at h
    · rename_i hr
      split at h
      · simp at h
      · rename_i hpa
        simp at h
        simp [← h, Bool.eq_false_iff, hpa]
    · rename_i hr
      rw [getLast?_cons_of_ne_nil a (by simpa [List.isEmpty_iff] using hr)] at h
      exact ih h

theorem rdropWhileP_cons (p : Char → Bool) (a : Char) (t : List Char) :
    rdropWhileP p (a :: t) =
      if (rdropWhileP p t).isEmpty then (if p a then [] else [a])
      else a :: rdropWhileP p t := rfl

theorem rdropWhileP_eq_self {p : Char → Bool} {l : List Char}
    (h : ∀ c, l.getLast? = some c → p c = false) : rdropWhileP p l = l := by
  induction l with
  | nil => rfl
  | cons a t ih =>
    cases t with
    | nil =>
      have := h a (by simp)
      simp [rdropWhileP_cons, rdropWhileP, this]
    | cons b t' =>
      have hr : rdropWhileP p (b :: t') = b :: t' := by
        apply ih
        intro c hc
        exact h c (by rw [getLast?_cons_of_ne_nil a (by simp)]; exact hc)
      rw [rdropWhileP_cons, hr]
      simp

theorem mem_dropWhile {p : Char → Bool} {l : List Char} {c : Char}
    (h : c ∈ l.dropWhile p) : c ∈ l :=
  (List.dropWhile_sublist p (l := l)).subset h

theorem head?_dropWhile {p : Char → Bool} {l : List Char} {c : Char}
    (h : (l.dropWhile p).head? = some c) : p c = false := by
  induction l with
  | nil => simp at h
  | cons a t ih =>
    by_cases hp : p a
    · rw [List.dropWhile_cons_of_pos hp] at h
      exact ih h
    · rw [List.dropWhile_cons_of_neg hp] at h
      simp only [List.head?_cons, Option.some.injEq] at h
      subst h
      exact Bool.eq_false_iff.mpr hp

theorem dropWhile_eq_self {p : Char → Bool} {l : List Char}
    (h : ∀ c, l.head? = some c → p c = false) : l.dropWhile p = l := by
  cases l with
  | nil => rfl
  | cons a t =>
    have := h a (by simp)
    rw [List.dropWhile_cons, if_neg (by simp [this])]

theorem mem_strip2 {p : Char → Bool} {l : List Char} {c : Char}
    (h : c ∈ strip2 p l) : c ∈ l :=
  mem_dropWhile (mem_rdropWhileP h)

theorem head?_strip2 {p : Char → Bool} {l : List Char} {c : Char}
    (h : (strip2 p l).head? = some c) : p c = false :=
  head?_dropWhile (head?_rdropWhileP h)

theorem getLast?_strip2 {p : Char → Bool} {l : List Char} {c : Char}
    (h : (strip2 p l).getLast? = some c) : p c = false :=
  getLast?_rdropWhileP h

theorem strip2_eq_self {p : Char → Bool} {l : List Char}
    (h1 : ∀ c, l.head? = some c → p c = false)
    (h2 : ∀ c, l.getLast? = some c → p c = false) : strip2 p l = l := by
  unfold strip2
  rw [dropWhile_eq_self h1]
  exact rdropWhileP_eq_self h2

/-- No two adjacent underscores (the invariant established by `collapseU`). -/
def noUU : List Char → Bool
  | [] => true
  | [_] => true
  | a :: b :: t => !(a = '_' && b = '_') && noUU (b :: t)

theorem noUU_tail {a : Char} {t : List Char} (h : noUU (a :: t) = true) :
    noUU t = true := by
  cases t with
  | nil => rfl
  | cons b t' => simp only [noUU, Bool.and_eq_true] at h; exact h.2

theorem mem_collapseU {l : List Char} {c : Char} (h : c ∈ collapseU l) : c ∈ l := by
  induction l using collapseU.induct with
  | case1 => simpa [collapseU] using h
  | case2 d => simpa [collapseU] using h
  | case3 a b t hab ih =>
    rw [collapseU, if_pos hab] at h
    exact List.mem_cons_of_mem a (ih h)
  | case4 a b t hab ih =>
    rw [collapseU, if_neg hab] at h
    rcases List.mem_cons.mp h with rfl | hm
    · exact List.mem_cons_self _ _
    · exact List.mem_cons_of_mem a (ih hm)

theorem collapseU_cons_head? : ∀ (b : Char) (t : List Char),
    (collapseU (b :: t)).head? = some b := by
  intro b t
  induction t generalizing b with
  | nil => rfl
  | cons c t' ih =>
    by_cases hbc : (b = '_' && c = '_') = true
    · have hbc' : b = '_' ∧ c = '_' := by simpa using hbc
      rw [collapseU, if_pos hbc, ih c, hbc'.1, hbc'.2]
    · rw [collapseU, if_neg hbc]
      rfl

theorem collapseU_ne_nil (b : Char) (t : List Char) : collapseU (b :: t) ≠ [] := by
  intro h
  have := collapseU_cons_head? b t
  rw [h] at this
  simp at this

theorem noUU_collapseU (l : List Char) : noUU (collapseU l) = true := by
  induction l using collapseU.induct with
  | case1 => rfl
  | case2 d => rfl
  | case3 a b t hab ih => rw [collapseU, if_pos hab]; exact ih
  | case4 a b t hab ih =>
    rw [collapseU, if_neg hab]
    have hh := collapseU_cons_head? b t
    cases hc : collapseU (b :: t) with
    | nil => exact absurd hc (collapseU_ne_nil b t)
    | cons b' rest =>
      rw [hc] at hh
      simp at hh
      subst hh
      rw [hc] at ih
      simp only [noUU, Bool.and_eq_true]
      exact ⟨by rw [Bool.eq_false_iff.mpr hab]; rfl, ih⟩

theorem collapseU_eq_self {l : List Char} (h : noUU l = true) : collapseU l = l := by
  induction l using collapseU.induct with
  | case1 => rfl
  | case2 d => rfl
  | case3 a b t hab ih =>
    have h1 : (a = '_' && b = '_') = false := by
      simp only [noUU, Bool.and_eq_true, Bool.not_eq_true'] at h
      exact h.1
    rw [hab] at h1
    exact absurd h1 (by simp)
  | case4 a b t hab ih =>
    simp only [noUU, Bool.and_eq_true] at h
    rw [collapseU, if_neg hab, ih h.2]

theorem noUU_dropWhile {p : Char → Bool} {l : List Char} (h : noUU l = true) :
    noUU (l.dropWhile p) = true := by
  induction l with
  | nil => rfl
  | cons a t ih =>
    by_cases hp : p a
    · rw [List.dropWhile_cons_of_pos hp]
      exact ih (noUU_tail h)
    · rwa [List.dropWhile_cons_of_neg hp]

theorem noUU_rdropWhileP {p : Char → Bool} {l : List Char} (h : noUU l = true) :
    noUU (rdropWhileP p l) = true := by
  induction l with
  | nil => rfl
  | cons a t ih =>
    have iht := ih (noUU_tail h)
    rw [rdropWhileP_cons]
    by_cases hr : (rdropWhileP p t).isEmpty
    · rw [if_pos hr]
      by_cases hp : p a
      · rw [if_pos hp]; rfl
      · rw [if_neg hp]; rfl
    · rw [if_neg hr]
      cases hc : rdropWhileP p t with
      | nil => rw [hc] at hr; simp at hr
      | cons b rest =>
        have hb : t.head? = some b := head?_rdropWhileP (by rw [hc]; rfl)
        cases ht : t with
        | nil => rw [ht] at hb; simp at hb
        | cons b0 t0 =>
          rw [ht] at hb
          simp at hb
          subst hb
          rw [ht] at h
          simp only [noUU, Bool.and_eq_true] at h
          rw [hc] at iht
          simp only [noUU, Bool.and_eq_true]
          exact ⟨h.1, iht⟩

theorem noUU_strip2 {p : Char → Bool} {l : List Char} (h : noUU l = true) :
    noUU (strip2 p l) = true :=
  noUU_rdropWhileP (noUU_dropWhile h)

theorem mem_subClass_allowed {l : List Char} {c : Char} (h : c ∈ subClass l) :
    isAllowedChar c = true := by
  unfold subClass at h
  rcases List.mem_map.mp h with ⟨d, _, hd⟩
  by_cases hall : isAllowedChar d
  · rw [if_pos hall] at hd; rwa [← hd]
  · rw [if_neg hall] at hd; rw [← hd]; rfl

theorem subClass_eq_self {l : List Char} (h : ∀ c ∈ l, isAllowedChar c = true) :
    subClass l = l := by
  unfold subClass
  induction l with
  | nil => rfl
  | cons a t ih =>
    simp only [List.map_cons]
    rw [if_pos (h a (List.mem_cons_self _ _)), ih (fun c hc => h c (List.mem_cons_of_mem a hc))]

theorem allowed_not_space {c : Char} (h : isAllowedChar c = true) : isPySpace c = false := by
  by_contra hs
  rw [Bool.not_eq_false] at hs
  simp only [isPySpace, Bool.or_eq_true, decide_eq_true_eq] at hs
  rcases hs with ((((rfl | rfl) | rfl) | rfl) | rfl) | rfl <;> exact absurd h (by decide)

/-! ## Facts about `cleanPhase` (the pre-truncation form of `sanitize_filename`) -/

theorem cleanPhase_allowed {l : List Char} {c : Char} (h : c ∈ cleanPhase l) :
    isAllowedChar c = true := by
  unfold cleanPhase at h
  split at h
  · revert h; revert c; decide
  · exact mem_subClass_allowed (mem_collapseU (mem_strip2 h))

theorem cleanPhase_ne_nil (l : List Char) : cleanPhase l ≠ [] := by
  unfold cleanPhase
  split
  · decide
  · rename_i hs
    simpa [List.isEmpty_iff] using hs

theorem cleanPhase_head {l : List Char} {c : Char} (h : (cleanPhase l).head? = some c) :
    isEdgeBad c = false := by
  unfold cleanPhase at h
  split at h
  · simp at h
    subst h
    decide
  · exact head?_strip2 h

theorem cleanPhase_last {l : List Char} {c : Char} (h : (cleanPhase l).getLast? = some c) :
    isEdgeBad c = false := by
  unfold cleanPhase at h
  split at h
  · simp at h
    subst h
    decide
  · exact getLast?_strip2 h

theorem cleanPhase_noUU (l : List Char) : noUU (cleanPhase l) = true := by
  unfold cleanPhase
  split
  · decide
  · exact noUU_strip2 (noUU_collapseU _)

theorem cleanPhase_fixed (l : List Char) : cleanPhase (cleanPhase l) = cleanPhase l := by
  have hA : ∀ c ∈ cleanPhase l, isAllowedChar c = true := fun c hc => cleanPhase_allowed hc
  have e1 : pyStripL (cleanPhase l) = cleanPhase l := by
    apply strip2_eq_self
    · intro c hc
      exact allowed_not_space (hA c (mem_of_head? hc))
    · intro c hc
      exact allowed_not_space (hA c (mem_of_getLast? hc))
  have e2 : subClass (cleanPhase l) = cleanPhase l := subClass_eq_self hA
  have e3 : collapseU (cleanPhase l) = cleanPhase l := collapseU_eq_self (cleanPhase_noUU l)
  have e4 : strip2 isEdgeBad (cleanPhase l) = cleanPhase l := by
    apply strip2_eq_self
    · intro c hc
      exact cleanPhase_head hc
    · intro c hc
      exact cleanPhase_last hc
  conv_lhs => rw [cleanPhase, e1, e2, e3, e4]
  rw [if_neg (by simpa [List.isEmpty_iff] using cleanPhase_ne_nil l)]

/-! ## Facts about `truncate100` -/

theorem mem_extOf {s : List Char} {c : Char} (h : c ∈ extOf s) : c ∈ s := by
  unfold extOf at h
  rw [List.mem_reverse] at h
  have := (List.takeWhile_prefix (l := s.reverse) (fun c => decide (c ≠ '.'))).subset h
  rwa [List.mem_reverse] at this

theorem truncate100_of_le {s : List Char} (h : s.length ≤ 100) : truncate100 s = s := by
  unfold truncate100
  rw [if_neg (by omega)]

theorem truncate100_ne_nil {s : List Char} (hne : s ≠ []) : truncate100 s ≠ [] := by
  unfold truncate100
  split
  · rename_i hlen
    split
    · split
      · simp
      · exact take_ne_nil hne (by omega)
    · exact take_ne_nil hne (by omega)
  · exact hne

theorem mem_truncate100 {s : List Char} {c : Char} (h : c ∈ truncate100 s) :
    c ∈ s ∨ c = '.' := by
  unfold truncate100 at h
  split at h
  · split at h
    · split at h
      · rcases List.mem_append.mp h with hm | hm
        · exact Or.inl (List.take_subset _ _ (List.take_subset _ _ hm))
        · rcases List.mem_cons.mp hm with rfl | hm'
          · exact Or.inr rfl
          · exact Or.inl (mem_extOf hm')
      · exact Or.inl (List.take_subset _ _ h)
    · exact Or.inl (List.take_subset _ _ h)
  · exact Or.inl h

theorem head?_truncate100 {s : List Char} {c : Char}
    (h : (truncate100 s).head? = some c) : s.head? = some c := by
  unfold truncate100 at h
  split at h
  · rename_i hlen
    have hne : s ≠ [] := by
      intro hs
      rw [hs] at hlen
      simp at hlen
    split at h
    · split at h
      · rename_i hstem
        rw [head?_append_of_ne_nil
          (take_ne_nil (take_ne_nil hne (by omega)) (by omega))] at h
        exact head?_take (head?_take h)
      · exact head?_take h
    · exact head?_take h
  · exact h

/-! ## Claims C4 and C5: totality and idempotence of `sanitize_filename` -/

/-- `true` when the first character (if any) is not `_` or `.`. -/
def headOkB (l : List Char) : Bool := !(Option.elim l.head? false isEdgeBad)

/-- `true` when the last character (if any) is not `_` or `.`. -/
def lastOkB (l : List Char) : Bool := !(Option.elim l.getLast? false isEdgeBad)

theorem stringMk_ne_empty {l : List Char} (h : l ≠ []) : String.mk l ≠ "" := by
  intro hc
  exact h (congrArg String.data hc)

theorem all_allowed_of_mem {l : List Char} (h : ∀ c ∈ l, isAllowedChar c = true) :
    l.all isAllowedChar = true := by
  induction l with
  | nil => rfl
  | cons a t ih =>
    simp only [List.all_cons, Bool.and_eq_true]
    exact ⟨h a (List.mem_cons_self _ _), ih fun c hc => h c (List.mem_cons_of_mem a hc)⟩

set_option maxRecDepth 4000 in
/-- **C4** (counterexample to the claim as stated): `sanitize_filename` applied to
the 101-character name `a.` + 97×`b` + `_b` returns a string that ends in an
underscore — the truncation step (utils.py lines 96-105) runs after the edge
stripping and can reintroduce a trailing `_`. -/
theorem sanitize_trailing_underscore_cex :
    (sanitize_filename ("a." ++ String.mk (List.replicate 97 'b') ++ "_b")).data.getLast? =
      some '_' := by decide

/-- **C4** (amended): `sanitize_filename` is total: for every input string it
returns a non-empty string of characters from `[A-Za-z0-9._-]` whose first
character is not `_` or `.`; and whenever the cleaned (pre-truncation) form is
at most 100 characters — so no truncation occurs — the last character is not
`_` or `.` either. -/
theorem sanitize_filename_total_amended (s : String) :
    sanitize_filename s ≠ "" ∧
    (sanitize_filename s).data.all isAllowedChar = true ∧
    headOkB (sanitize_filename s).data = true ∧
    ((cleanPhase s.data).length ≤ 100 → lastOkB (sanitize_filename s).data = true) := by
  by_cases hE : s.data.isEmpty
  · have hrepr : sanitizeL s.data = "unnamed".data := by
      unfold sanitizeL
      rw [if_pos hE]
    refine ⟨?_, ?_, ?_, fun _ => ?_⟩ <;> simp only [sanitize_filename, hrepr] <;> decide
  · have hrepr : sanitizeL s.data = truncate100 (cleanPhase s.data) := by
      unfold sanitizeL
      rw [if_neg hE]
    refine ⟨?_, ?_, ?_, ?_⟩
    · simp only [sanitize_filename, hrepr]
      exact stringMk_ne_empty (truncate100_ne_nil (cleanPhase_ne_nil _))
    · simp only [sanitize_filename, hrepr]
      apply all_allowed_of_mem
      intro c hc
      rcases mem_truncate100 hc with hm | rfl
      · exact cleanPhase_allowed hm
      · decide
    · simp only [sanitize_filename, hrepr]
      cases hh : (truncate100 (cleanPhase s.data)).head? with
      | none => simp [headOkB, hh]
      | some c =>
        have := cleanPhase_head (head?_truncate100 hh)
        simp [headOkB, hh, this]
    · intro hlen
      simp only [sanitize_filename, hrepr, truncate100_of_le hlen]
      cases hh : (cleanPhase s.data).getLast? with
      | none => simp [lastOkB, hh]
      | some c =>
        have := cleanPhase_last hh
        simp [lastOkB, hh, this]

/-- Witness for `sanitize_filename_total_amended` at the concrete input
`"abc!"`, discharging the no-truncation hypothesis. -/
theorem sanitize_filename_total_amended_witness :
    (cleanPhase "abc!".data).length ≤ 100 ∧ lastOkB (sanitize_filename "abc!").data = true :=
  ⟨by decide, (sanitize_filename_total_amended "abc!").2.2.2 (by decide)⟩

set_option maxRecDepth 4000 in
/-- **C5** (counterexample to the claim as stated): `sanitize_filename` is not
idempotent: the first pass over `a.` + 97×`b` + `_b` truncates to a string
ending in `_`, and the second pass strips that underscore, giving a different
result. -/
theorem sanitize_not_idempotent_cex :
    sanitize_filename (sanitize_filename ("a." ++ String.mk (List.replicate 97 'b') ++ "_b")) ≠
      sanitize_filename ("a." ++ String.mk (List.replicate 97 'b') ++ "_b") := by decide

theorem sanitizeL_of_short {l : List Char} (h : (cleanPhase l).length ≤ 100) :
    sanitizeL l = cleanPhase l := by
  unfold sanitizeL
  by_cases hE : l.isEmpty
  · rw [if_pos hE]
    have : l = [] := by simpa [List.isEmpty_iff] using hE
    subst this
    decide
  · rw [if_neg hE, truncate100_of_le h]

/-- **C5** (amended): `sanitize_filename` is idempotent on every input whose
cleaned (pre-truncation) form has at most 100 characters, i.e. whenever the
length-truncation step does not fire:
`sanitize_filename (sanitize_filename x) = sanitize_filename x`. -/
theorem sanitize_filename_idempotent_amended (s : String)
    (h : (cleanPhase s.data).length ≤ 100) :
    sanitize_filename (sanitize_filename s) = sanitize_filename s := by
  have h1 : sanitizeL s.data = cleanPhase s.data := sanitizeL_of_short h
  have h2 : sanitizeL (cleanPhase s.data) = cleanPhase s.data := by
    rw [sanitizeL_of_short (by rw [cleanPhase_fixed]; exact h), cleanPhase_fixed]
  simp only [sanitize_filename, h1, h2]

/-- Witness for `sanitize_filename_idempotent_amended` at the concrete input
`"My Cool App!"`. -/
theorem sanitize_filename_idempotent_amended_witness :
    (cleanPhase "My Cool App!".data).length ≤ 100 ∧
      sanitize_filename (sanitize_filename "My Cool App!") = sanitize_filename "My Cool App!" :=
  ⟨by decide, sanitize_filename_idempotent_amended "My Cool App!" (by decide)⟩

/-! ## Claim C6: `utils.validate_shortcut_name` -/

/-- The characters rejected by `validate_shortcut_name` (utils.py line 261). -/
def invalidNameChars : List Char := ['/', '\\', ':', '*', '?', '"', '<', '>', '|']

/-- `utils.validate_shortcut_name` (utils.py lines 237-268).  The Python code
rebinds `name = name.strip()` after the emptiness test, so every later check —
including the final `name != name.strip()` comparison — runs on the stripped
name. -/
def validate_shortcut_name (name : String) : Bool × String :=
  if name = "" ∨ pyStripS name = "" then
    (false, "Shortcut name can not be Empty")
  else if (pyStripS name).length < 1 then
    (false, "Shortcut Name must be at least 1 character long")
  else if (pyStripS name).length > 50 then
    (false, "Shortcut name must be 50 characters or less")
  else if ∃ c ∈ invalidNameChars, c ∈ (pyStripS name).data then
    (false, "Shortcut name contains invalid characters")
  else if pyStripS name ≠ pyStripS (pyStripS name) then
    (false, "Shortcut name cannot start or end with whitespace")
  else (true, "")

/-- The amended claim's classification, stated in its own words: validation is
decided entirely by the trimmed form — empty, then too long, then invalid
characters, in that order of precedence; untrimmed input is never rejected. -/
def specValidateName (name : String) : Bool × String :=
  if pyStripS name = "" then
    (false, "Shortcut name can not be Empty")
  else if (pyStripS name).length > 50 then
    (false, "Shortcut name must be 50 characters or less")
  else if ∃ c ∈ invalidNameChars, c ∈ (pyStripS name).data then
    (false, "Shortcut name contains invalid characters")
  else (true, "")

theorem strip2_idem (p : Char → Bool) (l : List Char) :
    strip2 p (strip2 p l) = strip2 p l :=
  strip2_eq_self (fun _ hc => head?_strip2 hc) (fun _ hc => getLast?_strip2 hc)

theorem pyStripS_idem (s : String) : pyStripS (pyStripS s) = pyStripS s := by
  simp only [pyStripS, pyStripL]
  rw [strip2_idem]

/-- **C6** (counterexample to the claim as stated): the raw input `" abc "`
differs from its trimmed form, yet `validate_shortcut_name` succeeds.  The
`Untrimmed` branch (utils.py line 265) is dead code: the name was already
rebound to its stripped form at line 251. -/
theorem validate_name_untrimmed_cex :
    " abc " ≠ pyStripS " abc " ∧ validate_shortcut_name " abc " = (true, "") := by
  constructor
  · decide
  · decide

/-- **C6** (amended): `validate_shortcut_name` classifies every input by its
trimmed form only: it fails `EmptyName` when the input is blank after trimming,
`TooLong` when the trimmed name exceeds 50 characters, `InvalidChars` when the
trimmed name contains any of `/ \ : * ? " < > |` — in that precedence order —
and succeeds otherwise.  Leading/trailing whitespace is silently trimmed, never
rejected (the untrimmed branch is unreachable). -/
theorem validate_shortcut_name_classification (name : String) :
    validate_shortcut_name name = specValidateName name := by
  unfold validate_shortcut_name specValidateName
  by_cases hs : pyStripS name = ""
  · rw [if_pos (Or.inr hs), if_pos hs]
  · have hdata : (pyStripS name).data ≠ [] := by
      intro hc
      apply hs
      show String.mk (pyStripL name.data) = ""
      have hc' : pyStripL name.data = [] := hc
      rw [hc']
    have hlen : ¬ (pyStripS name).length < 1 := by
      have := List.length_pos.mpr hdata
      simp only [String.length]
      omega
    rw [if_neg (fun hor => by
      rcases hor with rfl | h
      · exact hs rfl
      · exact hs h)]
    rw [if_neg hlen, pyStripS_idem, if_neg hs]
    simp

/-! ## Claim C7: `utils.validate_url`

`urllib.parse.urlparse` is part of the Python standard library, not of this
repository; it is modeled here for the three fields the program reads
(`scheme`, `netloc`, `path`), following CPython: tab/CR/LF removal, scheme
split (first `:` with an ASCII-alpha initial and scheme characters), netloc
after `//` up to the first `/?#`, fragment split on the first `#`, query split
on the first `?`, and the `urlparse`-level params split on `;`.  A netloc with
mismatched `[`/`]` raises `ValueError`, modeled as `none`; the stricter
bracketed-host validation of very recent CPython is not modeled. -/

/-- ASCII letter. -/
def isAsciiAlpha (c : Char) : Bool := ('a' ≤ c && c ≤ 'z') || ('A' ≤ c && c ≤ 'Z')

/-- CPython `scheme_chars`: characters allowed in a scheme after the first. -/
def isSchemeChar (c : Char) : Bool :=
  ('a' ≤ c && c ≤ 'z') || ('A' ≤ c && c ≤ 'Z') || ('0' ≤ c && c ≤ '9') ||
    c = '+' || c = '-' || c = '.'

/-- CPython `urlsplit` removes every `\t`, `\r`, `\n` before parsing. -/
def removeUnsafe (l : List Char) : List Char :=
  l.filter (fun c => !(c = '\t' || c = '\r' || c = '\n'))

/-- The scheme split of CPython `urlsplit`: the part before the first `:` is
the scheme when it starts with an ASCII letter and the remaining characters
are scheme characters; the scheme is lower-cased. -/
def schemeSplit (u : List Char) : List Char × List Char :=
  match splitOnceChar ':' u with
  | some (before, after) =>
    match before with
    | [] => ([], u)
    | c0 :: rest =>
      if isAsciiAlpha c0 && rest.all isSchemeChar then (lowerL (c0 :: rest), after)
      else ([], u)
  | none => ([], u)

/-- A character ending the netloc (`_splitnetloc` stops at `/`, `?`, `#`). -/
def isNetlocDelim (c : Char) : Bool := c = '/' || c = '?' || c = '#'

/-- The `scheme`, `netloc` and `path` fields of a parse result. -/
structure UrlParts where
  scheme : List Char
  netloc : List Char
  path : List Char

/-- The suffix after the last `/` (used by `_splitparams`). -/
def afterLastSlash (p : List Char) : List Char :=
  (p.reverse.takeWhile (fun c => c ≠ '/')).reverse

/-- `urlparse`'s `_splitparams`: drop `;params` from the last path segment. -/
def splitParams (p : List Char) : List Char :=
  if ';' ∈ p then
    if '/' ∈ p then
      match splitOnceChar ';' (afterLastSlash p) with
      | some (x, _) => p.take (p.length - (afterLastSlash p).length) ++ x
      | none => p
    else
      match splitOnceChar ';' p with
      | some (x, _) => x
      | none => p
  else p

/-- The `path` of the remainder after scheme/netloc removal: cut the fragment
at the first `#`, the query at the first `?`, then split params. -/
def pathOf (r : List Char) : List Char :=
  splitParams
    (match splitOnceChar '?'
        (match splitOnceChar '#' r with | some (x, _) => x | none => r) with
     | some (x, _) => x
     | none => r)

/-- Netloc/path extraction once the scheme has been removed. -/
def urlparseAfterScheme (s rest : List Char) : Option UrlParts :=
  if rest.take 2 = ['/', '/'] then
    if ('[' ∈ (rest.drop 2).takeWhile (fun c => !(isNetlocDelim c)) ∧
        ']' ∉ (rest.drop 2).takeWhile (fun c => !(isNetlocDelim c))) ∨
       (']' ∈ (rest.drop 2).takeWhile (fun c => !(isNetlocDelim c)) ∧
        '[' ∉ (rest.drop 2).takeWhile (fun c => !(isNetlocDelim c))) then none
    else
      some ⟨s, (rest.drop 2).takeWhile (fun c => !(isNetlocDelim c)),
            pathOf ((rest.drop 2).dropWhile (fun c => !(isNetlocDelim c)))⟩
  else some ⟨s, [], pathOf rest⟩

/-- Model of `urllib.parse.urlparse` (fields `scheme`, `netloc`, `path`).
`none` models a raised `ValueError`. -/
def urlparseL (l : List Char) : Option UrlParts :=
  urlparseAfterScheme (schemeSplit (removeUnsafe l)).1 (schemeSplit (removeUnsafe l)).2

/-- os.path.isabs on POSIX: the path starts with `/`. -/
def isAbsL : List Char → Bool
  | '/' :: _ => true
  | _ => false

/-- The HTTP/HTTPS acceptance test of `validate_url` (utils.py lines 29-34):
scheme `http` or `https` with a non-empty netloc; a raised parse error is
swallowed (`except Exception: pass`). -/
def httpOk : Option UrlParts → Bool
  | some r =>
    if (r.scheme = "http".data ∨ r.scheme = "https".data) ∧ r.netloc ≠ [] then true else false
  | none => false

/-- The `file://` branch of `validate_url` (utils.py lines 37-42): the parsed
path must exist; a raised parse error returns `False`. -/
def fileBranch (ex : String → Bool) : Option UrlParts → Bool
  | some r => ex (String.mk r.path)
  | none => false

/-- The other-protocol branch of `validate_url` (utils.py lines 49-62):
`ftp`/`ftps` with netloc, `mailto` with `@` in the path, `tel`/`sms` with a
path, and finally the catch-all `bool(scheme and (netloc or path))`. -/
def otherSchemeBranch : Option UrlParts → Bool
  | some r =>
    if r.scheme ≠ [] ∧ r.scheme ≠ "http".data ∧ r.scheme ≠ "https".data ∧
        r.scheme ≠ "file".data then
      if (r.scheme = "ftp".data ∨ r.scheme = "ftps".data) ∧ r.netloc ≠ [] then true
      else if r.scheme = "mailto".data ∧ '@' ∈ r.path then true
      else if (r.scheme = "tel".data ∨ r.scheme = "sms".data) ∧ r.path ≠ [] then true
      else if r.scheme ≠ [] ∧ (r.netloc ≠ [] ∨ r.path ≠ []) then true else false
    else false
  | none => false

/-- `utils.validate_url` (utils.py lines 13-64) over an existence predicate
`ex` modeling `os.path.exists`. -/
def validate_url (ex : String → Bool) (url : String) : Bool :=
  if pyStripL url.data = [] then false
  else if httpOk (urlparseL (pyStripL url.data)) then true
  else if "file://".data <+: pyStripL url.data then
    fileBranch ex (urlparseL (pyStripL url.data))
  else if isAbsL (pyStripL url.data) then ex (String.mk (pyStripL url.data))
  else otherSchemeBranch (urlparseL (pyStripL url.data))

/-- The original claim's clause (d): any other non-empty scheme with a host
or — for `mailto` specifically — an `@` in the path. -/
def claimOtherOrig : Option UrlParts → Bool
  | some r =>
    if r.scheme ≠ [] ∧ r.scheme ≠ "http".data ∧ r.scheme ≠ "https".data ∧
        r.scheme ≠ "file".data ∧
        (r.netloc ≠ [] ∨ (r.scheme = "mailto".data ∧ '@' ∈ r.path)) then true
    else false
  | none => false

/-- The claim's (amended) clause (d): any other non-empty scheme with a host
or a non-empty path. -/
def amendedOther : Option UrlParts → Bool
  | some r =>
    if r.scheme ≠ [] ∧ r.scheme ≠ "http".data ∧ r.scheme ≠ "https".data ∧
        r.scheme ≠ "file".data ∧ (r.netloc ≠ [] ∨ r.path ≠ []) then true
    else false
  | none => false

/-- The acceptance condition exactly as claim C7 states it:
(a) ∨ (b) ∨ (c) ∨ (d), with (d) requiring a host or the mailto-`@` case. -/
def claimValidTarget (ex : String → Bool) (url : String) : Bool :=
  if pyStripL url.data = [] then false
  else
    httpOk (urlparseL (pyStripL url.data)) ||
    (decide ("file://".data <+: pyStripL url.data) &&
      fileBranch ex (urlparseL (pyStripL url.data))) ||
    (isAbsL (pyStripL url.data) && ex (String.mk (pyStripL url.data))) ||
    claimOtherOrig (urlparseL (pyStripL url.data))

/-- The amended acceptance condition: (a) ∨ (b) ∨ (c) ∨ (d'), where (d')
accepts any other non-empty scheme with a host **or a non-empty path**. -/
def specValidTarget (ex : String → Bool) (url : String) : Bool :=
  if pyStripL url.data = [] then false
  else
    httpOk (urlparseL (pyStripL url.data)) ||
    (decide ("file://".data <+: pyStripL url.data) &&
      fileBranch ex (urlparseL (pyStripL url.data))) ||
    (isAbsL (pyStripL url.data) && ex (String.mk (pyStripL url.data))) ||
    amendedOther (urlparseL (pyStripL url.data))

theorem urlparseAfterScheme_scheme (s rest : List Char) :
    urlparseAfterScheme s rest = none ∨
      ∃ nl p, urlparseAfterScheme s rest = some ⟨s, nl, p⟩ := by
  unfold urlparseAfterScheme
  split
  · split
    · exact Or.inl rfl
    · exact Or.inr ⟨_, _, rfl⟩
  · exact Or.inr ⟨_, _, rfl⟩

theorem schemeSplit_head_not_alpha {a : Char} (m : List Char)
    (ha : isAsciiAlpha a = false) : schemeSplit (a :: m) = ([], a :: m) := by
  unfold schemeSplit
  by_cases hc : a = ':'
  · subst hc
    simp [splitOnceChar]
  · simp only [splitOnceChar, if_neg hc]
    cases hm : splitOnceChar ':' m with
    | none => rfl
    | some q =>
      obtain ⟨x, y⟩ := q
      simp [ha]

theorem removeUnsafe_file (t : List Char) :
    removeUnsafe ("file://".data ++ t) = "file://".data ++ removeUnsafe t := rfl

theorem schemeSplit_file (m : List Char) :
    schemeSplit ("file://".data ++ m) = ("file".data, '/' :: '/' :: m) := rfl

/-- A URL starting with `file://` parses (when it parses) with scheme `file`. -/
theorem urlparseL_file_scheme {u : List Char} (h : "file://".data <+: u) :
    urlparseL u = none ∨ ∃ nl p, urlparseL u = some ⟨"file".data, nl, p⟩ := by
  obtain ⟨t, rfl⟩ := h
  unfold urlparseL
  rw [removeUnsafe_file, schemeSplit_file]
  exact urlparseAfterScheme_scheme _ _

/-- An absolute path (leading `/`) parses (when it parses) with empty scheme. -/
theorem urlparseL_abs_scheme {u : List Char} (h : isAbsL u = true) :
    urlparseL u = none ∨ ∃ nl p, urlparseL u = some ⟨[], nl, p⟩ := by
  cases u with
  | nil => simp [isAbsL] at h
  | cons a t =>
    have ha : a = '/' := by
      by_contra hne
      rw [show isAbsL (a :: t) = false by
        unfold isAbsL
        split
        · rename_i heq
          injection heq with h1 h2
          exact absurd h1 hne
        · rfl] at h
      simp at h
    subst ha
    unfold urlparseL
    have e1 : removeUnsafe ('/' :: t) = '/' :: removeUnsafe t := rfl
    rw [e1, schemeSplit_head_not_alpha _ (by decide)]
    exact urlparseAfterScheme_scheme _ _

theorem isAbsL_file {u : List Char} (h : "file://".data <+: u) : isAbsL u = false := by
  obtain ⟨t, rfl⟩ := h
  rfl

theorem otherSchemeBranch_some (r : UrlParts) :
    otherSchemeBranch (some r) =
      if r.scheme ≠ [] ∧ r.scheme ≠ "http".data ∧ r.scheme ≠ "https".data ∧
          r.scheme ≠ "file".data then
        if (r.scheme = "ftp".data ∨ r.scheme = "ftps".data) ∧ r.netloc ≠ [] then true
        else if r.scheme = "mailto".data ∧ '@' ∈ r.path then true
        else if (r.scheme = "tel".data ∨ r.scheme = "sms".data) ∧ r.path ≠ [] then true
        else if r.scheme ≠ [] ∧ (r.netloc ≠ [] ∨ r.path ≠ []) then true else false
      else false := rfl

theorem amendedOther_some (r : UrlParts) :
    amendedOther (some r) =
      if r.scheme ≠ [] ∧ r.scheme ≠ "http".data ∧ r.scheme ≠ "https".data ∧
          r.scheme ≠ "file".data ∧ (r.netloc ≠ [] ∨ r.path ≠ []) then true
      else false := rfl

theorem otherSchemeBranch_eq_amended (o : Option UrlParts) :
    otherSchemeBranch o = amendedOther o := by
  cases o with
  | none => rfl
  | some r =>
    by_cases houter : r.scheme ≠ [] ∧ r.scheme ≠ "http".data ∧ r.scheme ≠ "https".data ∧
        r.scheme ≠ "file".data
    · by_cases hrest : r.netloc ≠ [] ∨ r.path ≠ []
      · have hR : amendedOther (some r) = true := by
          rw [amendedOther_some,
            if_pos ⟨houter.1, houter.2.1, houter.2.2.1, houter.2.2.2, hrest⟩]
        have hL : otherSchemeBranch (some r) = true := by
          rw [otherSchemeBranch_some, if_pos houter]
          by_cases h1 : (r.scheme = "ftp".data ∨ r.scheme = "ftps".data) ∧ r.netloc ≠ []
          · rw [if_pos h1]
          · rw [if_neg h1]
            by_cases h2 : r.scheme = "mailto".data ∧ '@' ∈ r.path
            · rw [if_pos h2]
            · rw [if_neg h2]
              by_cases h3 : (r.scheme = "tel".data ∨ r.scheme = "sms".data) ∧ r.path ≠ []
              · rw [if_pos h3]
              · rw [if_neg h3, if_pos ⟨houter.1, hrest⟩]
        rw [hL, hR]
      · push_neg at hrest
        have hR : amendedOther (some r) = false := by
          rw [amendedOther_some,
            if_neg (fun hcl => by
              rcases hcl.2.2.2.2 with hc | hc
              · exact hc hrest.1
              · exact hc hrest.2)]
        have hL : otherSchemeBranch (some r) = false := by
          rw [otherSchemeBranch_some, if_pos houter,
            if_neg (fun h1 => h1.2 hrest.1),
            if_neg (fun h2 => (List.ne_nil_of_mem h2.2) hrest.2),
            if_neg (fun h3 => h3.2 hrest.2),
            if_neg (fun h4 => by
              rcases h4.2 with hc | hc
              · exact hc hrest.1
              · exact hc hrest.2)]
        rw [hL, hR]
    · have hR : amendedOther (some r) = false := by
        rw [amendedOther_some,
          if_neg (fun hcl => houter ⟨hcl.1, hcl.2.1, hcl.2.2.1, hcl.2.2.2.1⟩)]
      have hL : otherSchemeBranch (some r) = false := by
        rw [otherSchemeBranch_some, if_neg houter]
      rw [hL, hR]

/-- **C7** (counterexample to the claim as stated): `"tel:123"` has a
non-empty non-mailto scheme, no host, and only a path, so the claim rejects
it; but `validate_url` accepts it through the catch-all
`bool(result.scheme and (result.netloc or result.path))` (and the explicit
`tel`/`sms` branch) at utils.py lines 57-60. -/
theorem validate_url_claim_cex :
    validate_url (fun _ => false) "tel:123" = true ∧
      claimValidTarget (fun _ => false) "tel:123" = false := by
  constructor
  · decide
  · decide

/-- **C7** (amended): `validate_url` accepts an input exactly when its
stripped form is non-empty and (a) it parses as `http`/`https` with a
non-empty host, or (b) it starts with `file://` and the parsed local path
exists, or (c) it is an absolute path that exists, or (d') it parses with any
other non-empty scheme and has a host **or a non-empty path** (so `mailto`
without `@`, `tel`, `sms`, and any hostless scheme with a path are accepted);
no exception escapes. -/
theorem validate_url_characterization (ex : String → Bool) (url : String) :
    validate_url ex url = specValidTarget ex url := by
  unfold validate_url specValidTarget
  by_cases h0 : pyStripL url.data = []
  · rw [if_pos h0, if_pos h0]
  · rw [if_neg h0, if_neg h0]
    by_cases hA : httpOk (urlparseL (pyStripL url.data)) = true
    · rw [if_pos hA, hA]
      simp
    · have hA' : httpOk (urlparseL (pyStripL url.data)) = false := Bool.eq_false_iff.mpr hA
      rw [if_neg hA, hA']
      simp only [Bool.false_or]
      by_cases hF : "file://".data <+: pyStripL url.data
      · rw [if_pos hF]
        have hAbs : isAbsL (pyStripL url.data) = false := isAbsL_file hF
        rcases urlparseL_file_scheme hF with hp | ⟨nl, p, hp⟩
        · rw [hp]
          simp [hAbs, fileBranch, amendedOther]
        · rw [hp]
          simp only [decide_eq_true_eq, hF, decide_True, Bool.true_and, hAbs,
            Bool.false_and, Bool.or_false]
          have : amendedOther (some ⟨"file".data, nl, p⟩) = false := by
            simp [amendedOther]
          rw [this]
          simp
      · have hF' : decide ("file://".data <+: pyStripL url.data) = false := by
          simpa using hF
        rw [if_neg hF, hF']
        simp only [Bool.false_and, Bool.false_or]
        by_cases hAbs : isAbsL (pyStripL url.data) = true
        · rw [if_pos hAbs, hAbs]
          simp only [Bool.true_and]
          rcases urlparseL_abs_scheme hAbs with hp | ⟨nl, p, hp⟩
          · rw [hp]
            simp [amendedOther]
          · rw [hp]
            have : amendedOther (some ⟨[], nl, p⟩) = false := by
              simp [amendedOther]
            rw [this]
            simp
        · have hAbs' : isAbsL (pyStripL url.data) = false := Bool.eq_false_iff.mpr hAbs
          rw [if_neg hAbs, hAbs']
          simp only [Bool.false_and, Bool.false_or]
          exact otherSchemeBranch_eq_amended _

/-! ## Claims C9 and C10: `config.Config` -/

/-- The fallback site-icon table hard-coded in `Config._load_site_icons`
(config.py lines 75-96); the `assets/site_icons.json` side file is not part of
the source tree, so the in-code fallback applies.  Insertion order matters for
the substring-matching loop of `get_icon_for_url`. -/
def fallbackSiteIcons : List (String × String) :=
  [("youtube.com", "youtube"), ("youtu.be", "youtube"), ("google.com", "google"),
   ("github.com", "github"), ("stackoverflow.com", "stackoverflow"),
   ("reddit.com", "reddit"), ("twitter.com", "twitter"), ("x.com", "twitter"),
   ("facebook.com", "facebook"), ("linkedin.com", "linkedin"),
   ("instagram.com", "instagram"), ("discord.com", "discord"),
   ("slack.com", "slack"), ("teams.microsoft.com", "teams"), ("zoom.us", "zoom"),
   ("wikipedia.org", "wikipedia"), ("amazon.com", "amazon"), ("ebay.com", "ebay"),
   ("netflix.com", "netflix"), ("spotify.com", "spotify")]

/-- The fields of `config.Config` used by the shortcut component. -/
structure Config where
  user_applications_dir : String
  system_applications_dir : String
  default_browser : String
  default_icon : String
  default_category : String
  site_icons : List (String × String)

/-- `Config.__init__` (config.py lines 16-53) for a given home directory:
`user_applications_dir = Path.home() / ".local" / "share" / "applications"`,
`system_applications_dir = Path("/usr/share/applications")`. -/
def mkConfig (home : String) : Config where
  user_applications_dir := home ++ "/.local/share/applications"
  system_applications_dir := "/usr/share/applications"
  default_browser := "xdg-open"
  default_icon := "applications-internet"
  default_category := "Network;WebBrowser;"
  site_icons := fallbackSiteIcons

/-- `Config.get_application_dir` (config.py lines 99-104). -/
def get_application_dir (c : Config) (mode : String) : String :=
  if mode = "system" then c.system_applications_dir else c.user_applications_dir

/-- **C10**: scope resolution never fails and never validates the mode string:
exactly the string `"system"` selects the shared system directory, and every
other mode string — misspellings, `"all"`, the empty string, not only
`"user"` — resolves to the per-user applications directory. -/
theorem get_application_dir_fallback (c : Config) (mode : String) :
    (mode ≠ "system" → get_application_dir c mode = c.user_applications_dir) ∧
    get_application_dir c "system" = c.system_applications_dir :=
  ⟨fun h => if_neg h, if_pos rfl⟩

/-- Witness for `get_application_dir_fallback` at the non-`"user"` mode
string `"all"`. -/
theorem get_application_dir_fallback_witness :
    ("all" : String) ≠ "system" ∧
      get_application_dir (mkConfig "/home/u") "all" =
        (mkConfig "/home/u").user_applications_dir :=
  ⟨by decide, (get_application_dir_fallback (mkConfig "/home/u") "all").1 (by decide)⟩

/-- A keyword list intersects a (lower-cased) target when some keyword is a
substring of it (Python `any(site in url_lower for site in [...])`). -/
def anyKeyword (kws : List String) (l : List Char) : Prop :=
  ∃ kw ∈ kws, kw.data <:+: l

instance (kws : List String) (l : List Char) : Decidable (anyKeyword kws l) :=
  List.decidableBEx _ kws

/-- Media keywords (config.py line 152). -/
def mediaKeywords : List String :=
  ["youtube", "netflix", "spotify", "twitch", "hotstar", "prime"]

/-- Development keywords (config.py line 156). -/
def devKeywords : List String :=
  ["github", "stackoverflow", "gitlab", "chatgpt", "deepseek", "gemini"]

/-- Social-media keywords (config.py line 160); note the single-letter
keyword `"x"`. -/
def socialKeywords : List String :=
  ["twitch", "twitter", "x", "facebook", "linkedin", "reddit", "instagram"]

/-- Shopping keywords (config.py line 164). -/
def shoppingKeywords : List String := ["amazon", "flipkart", "ebay", "shopping"]

/-- Communication keywords (config.py line 168). -/
def commKeywords : List String := ["discord", "slack", "teams", "zoom"]

/-- `Config.get_categories_for_url` (config.py lines 147-177): a fixed
`if`/`elif` chain over the keyword groups, then the local-file test on
`file://`-prefix of the lowered URL or `os.path.isabs` of the raw URL, then
the default category. -/
def get_categories_for_url (c : Config) (url : String) : String :=
  if anyKeyword mediaKeywords (lowerL url.data) then "AudioVideo;Audio;Video;Player;"
  else if anyKeyword devKeywords (lowerL url.data) then "Development;IDE;"
  else if anyKeyword socialKeywords (lowerL url.data) then "Network;Chat;InstantMessaging;"
  else if anyKeyword shoppingKeywords (lowerL url.data) then "Network;WebBrowser;"
  else if anyKeyword commKeywords (lowerL url.data) then "Network;Chat;VideoConference;"
  else if "file://".data <+: lowerL url.data ∨ isAbsL url.data = true then
    "System;FileManager;"
  else c.default_category

/-- The five keyword groups in the claim's precedence order
media > development > social > shopping > communication, with their
semicolon-terminated category strings. -/
def categoryGroups : List (List String × String) :=
  [(mediaKeywords, "AudioVideo;Audio;Video;Player;"),
   (devKeywords, "Development;IDE;"),
   (socialKeywords, "Network;Chat;InstantMessaging;"),
   (shoppingKeywords, "Network;WebBrowser;"),
   (commKeywords, "Network;Chat;VideoConference;")]

/-- The claim's description of `CategoriesFor`: the category of the **first**
group (in the fixed order) whose keyword list intersects the lowered target;
if none intersects, a local absolute/`file://` target gets the file-manager
category, and otherwise the default is returned. -/
def specCategoriesFor (c : Config) (url : String) : String :=
  match categoryGroups.find? (fun g => decide (anyKeyword g.1 (lowerL url.data))) with
  | some g => g.2
  | none =>
    if "file://".data <+: lowerL url.data ∨ isAbsL url.data = true then
      "System;FileManager;"
    else c.default_category

/-- **C9**: `get_categories_for_url` returns the category of the first keyword
group, in the fixed precedence order media > development > social > shopping >
communication, whose keywords intersect the lowercased target; only when no
group matches does an absolute or `file://` target get the file-manager
category, and otherwise the default `"Network;WebBrowser;"` applies.  In
particular a multi-group target gets the earliest group's category and a local
path matching an earlier group does not get the file-manager category. -/
theorem get_categories_for_url_precedence (c : Config) (url : String) :
    get_categories_for_url c url = specCategoriesFor c url := by
  unfold get_categories_for_url specCategoriesFor categoryGroups
  by_cases h1 : anyKeyword mediaKeywords (lowerL url.data)
  · simp [h1]
  · by_cases h2 : anyKeyword devKeywords (lowerL url.data)
    · simp [h1, h2]
    · by_cases h3 : anyKeyword socialKeywords (lowerL url.data)
      · simp [h1, h2, h3]
      · by_cases h4 : anyKeyword shoppingKeywords (lowerL url.data)
        · simp [h1, h2, h3, h4]
        · by_cases h5 : anyKeyword commKeywords (lowerL url.data)
          · simp [h1, h2, h3, h4, h5]
          · simp [h1, h2, h3, h4, h5]

example :
    get_categories_for_url (mkConfig "/home/u") "https://github.com/feed" =
      "Development;IDE;" := by decide

example :
    get_categories_for_url (mkConfig "/home/u") "/home/u/videos/youtube" =
      "AudioVideo;Audio;Video;Player;" := by decide

/-! ## `creator.DesktopFileCreator` over an explicit filesystem

The filesystem is a record of files (path, content), directories, and
executable-marked paths.  `mkdir(parents=True)` is modeled as inserting the
one target directory (intermediate parents are not tracked); `chmod 0o755`
marks the path executable. -/

/-- Filesystem state threaded through the Record Store operations. -/
structure FS where
  files : List (String × String)
  dirs : List String
  execs : List String
deriving DecidableEq

/-- `os.path.exists` / `Path.exists`: a file or directory is present. -/
def fsExists (fs : FS) (p : String) : Bool :=
  fs.files.any (fun f => f.1 == p) || fs.dirs.contains p

/-- `open(path, "w").write(content)`: replace any previous content. -/
def writeFile (fs : FS) (p content : String) : FS :=
  { fs with files := (p, content) :: fs.files.filter (fun f => !(f.1 == p)) }

/-- `Path.mkdir(parents=True, exist_ok=True)` for the target directory. -/
def mkdirP (fs : FS) (d : String) : FS :=
  { fs with dirs := if fs.dirs.contains d then fs.dirs else d :: fs.dirs }

/-- `os.chmod(path, 0o755)`. -/
def chmod755 (fs : FS) (p : String) : FS :=
  { fs with execs := if fs.execs.contains p then fs.execs else p :: fs.execs }

/-- `Path.unlink`. -/
def removeFile (fs : FS) (p : String) : FS :=
  { fs with files := fs.files.filter (fun f => !(f.1 == p)) }

/-- Read a file's content. -/
def readFile (fs : FS) (p : String) : Option String :=
  (fs.files.find? (fun f => f.1 == p)).map (fun f => f.2)

/-- Attribute lookup of the method name `get_applications_dir` on a `Config`
instance.  `Config` defines `get_application_dir` (config.py line 99, no
trailing `s`), but every call site in creator.py (lines 53, 134, 151, 179) and
scripts/lazylauncher_cli.py line 388 invokes `get_applications_dir`, which
does not exist — so the lookup raises `AttributeError`, modeled as `none`.
The `except Exception` handlers of the calling methods turn this into their
failure results. -/
def config_attr_get_applications_dir : Option (Config → String → String) := none

/-- `utils.format_exec_command`'s escaping: `url.replace('"', chr(92) ++ '"')`
followed by the same for the apostrophe (the two sequential replacements do
not interfere, so a single pass is equivalent). -/
def escapeTarget (l : List Char) : List Char :=
  l.bind (fun c =>
    if c = '"' then ['\\', '"'] else if c = '\'' then ['\\', '\''] else [c])

/-- `utils.format_exec_command` (utils.py lines 213-234). -/
def format_exec_command (browser_command url : String) : String :=
  if browser_command = "xdg-open" then
    "xdg-open \"" ++ String.mk (escapeTarget url.data) ++ "\""
  else
    (if (' ' ∈ browser_command.data) ∧
        ¬(browser_command.data.head? = some '"' ∧
          browser_command.data.getLast? = some '"') then
      "\"" ++ browser_command ++ "\""
    else browser_command) ++ " \"" ++ String.mk (escapeTarget url.data) ++ "\""

/-- Drop a leading `www.` from a domain (config.py lines 120-121). -/
def stripWWW (d : List Char) : List Char :=
  if "www.".data <+: d then d.drop 4 else d

/-- `Config.get_icon_for_url` (config.py lines 107-144): exact domain lookup
first, then substring matching over the icon table in insertion order, then
scheme-based defaults. -/
def get_icon_for_url (c : Config) (url : String) : String :=
  if url = "" then c.default_icon
  else
    match ((match urlparseL url.data with
           | some r =>
             if r.netloc ≠ [] then
               (c.site_icons.find?
                 (fun kv => kv.1.data == stripWWW (lowerL r.netloc))).map
                 (fun kv => kv.2)
             else none
           | none => none : Option String)) with
    | some icon => icon
    | none =>
      match c.site_icons.find? (fun kv => decide (kv.1.data <:+: lowerL url.data)) with
      | some kv => kv.2
      | none =>
        if "http://".data <+: lowerL url.data ∨ "https://".data <+: lowerL url.data then
          "applications-internet"
        else if "file://".data <+: lowerL url.data ∨ isAbsL url.data = true then "folder"
        else if "ftp://".data <+: lowerL url.data then "folder-remote"
        else if "mailto:".data <+: lowerL url.data then "mail-send"
        else c.default_icon

/-- `DesktopFileCreator._create_desktop_content` (creator.py lines 89-108)
instantiating `Config.desktop_template` (config.py lines 34-43). -/
def create_desktop_content (c : Config) (name description url browser_command : String) :
    String :=
  "[Desktop Entry]\nName=" ++ name ++
  "\nGenericName=" ++ description ++
  "\nExec=" ++ format_exec_command browser_command url ++
  "\nIcon=" ++ get_icon_for_url c url ++
  "\nType=Application\nComment=Open - " ++ description ++
  "\nCategories=" ++ get_categories_for_url c url ++
  "\nStartupNotify=true\n"

/-- `DesktopFileCreator.create_shortcut` (creator.py lines 23-87).  The result
is (returned boolean, filesystem after the call, number of index rebuilds
triggered).  After both validations pass, the method computes the filename and
then evaluates `self.config.get_applications_dir(mode)`; that attribute does
not exist, the `AttributeError` is caught by `except Exception` (line 85) and
the method returns `False` having touched nothing.  The `some` branch models
the remainder of the method body as written. -/
def create_shortcut (c : Config) (fs : FS)
    (name description url browser_command mode : String) : Bool × FS × Nat :=
  if (validate_shortcut_name name).1 = false then (false, fs, 0)
  else if validate_url (fsExists fs) url = false then (false, fs, 0)
  else
    match config_attr_get_applications_dir with
    | none => (false, fs, 0)
    | some getDir =>
      (true,
       chmod755
         (writeFile (mkdirP fs (getDir c mode))
           (getDir c mode ++ "/" ++ (sanitize_filename name ++ ".desktop"))
           (create_desktop_content c name description url browser_command))
         (getDir c mode ++ "/" ++ (sanitize_filename name ++ ".desktop")),
       1)

/-- `DesktopFileCreator.remove_shortcut` (creator.py lines 130-146): computes
the filename, resolves the directory (raising `AttributeError`, caught at
line 144), unlinks if present. -/
def remove_shortcut (c : Config) (fs : FS) (name mode : String) : Bool × FS × Nat :=
  match config_attr_get_applications_dir with
  | none => (false, fs, 0)
  | some getDir =>
    if fsExists fs (getDir c mode ++ "/" ++ (sanitize_filename name ++ ".desktop")) then
      (true, removeFile fs (getDir c mode ++ "/" ++ (sanitize_filename name ++ ".desktop")), 1)
    else (false, fs, 0)

/-- Insert-or-overwrite into the Python dict built by `get_shortcut_details`. -/
def dictSet (d : List (String × String)) (k v : String) : List (String × String) :=
  (k, v) :: d.filter (fun kv => !(kv.1 == k))

/-- One line of the `get_shortcut_details` parsing loop
(creator.py lines 189-215). -/
def parseLine (d : List (String × String)) (line : List Char) : List (String × String) :=
  if "Name=".data <+: line then dictSet d "name" (String.mk (line.drop 5))
  else if "GenericName=".data <+: line then dictSet d "description" (String.mk (line.drop 12))
  else if "Exec=".data <+: line then
    if "xdg-open".data <:+: line.drop 5 then
      match splitAllChar '"' (line.drop 5) with
      | _ :: x :: _ => dictSet (dictSet d "url" (String.mk x)) "browser_command" "xdg-open"
      | _ => dictSet d "browser_command" "xdg-open"
    else
      match splitAllChar '"' (line.drop 5) with
      | p0 :: x :: _ :: _ =>
        dictSet (dictSet d "browser_command" (pyStripS (String.mk p0))) "url" (String.mk x)
      | _ :: x :: [] => dictSet (dictSet d "url" (String.mk x)) "browser_command" "custom"
      | _ => d
  else if "Comment=".data <+: line then
    if "Open - ".data <+: line.drop 8 then
      dictSet d "description" (String.mk (line.drop 15))
    else d
  else d

/-- The field dictionary parsed from a `.desktop` file's content. -/
def parseDetails (content : String) : List (String × String) :=
  (splitAllChar '\n' content.data).foldl parseLine []

/-- `DesktopFileCreator.get_shortcut_details` (creator.py lines 175-221): the
directory resolution raises `AttributeError` (line 179), caught at line 219,
so the method returns the empty dictionary. -/
def get_shortcut_details (c : Config) (fs : FS) (name mode : String) :
    List (String × String) :=
  match config_attr_get_applications_dir with
  | none => []
  | some getDir =>
    if fsExists fs (getDir c mode ++ "/" ++ (sanitize_filename name ++ ".desktop")) then
      match readFile fs (getDir c mode ++ "/" ++ (sanitize_filename name ++ ".desktop")) with
      | some content => parseDetails content
      | none => []
    else []

/-- Configuration and filesystem fixtures for the concrete evaluations. -/
def cfg0 : Config := mkConfig "/home/user"

/-- An empty filesystem. -/
def fs0 : FS := ⟨[], [], []⟩

/-- A filesystem already holding the shortcut file for the name `Test` in the
user scope directory. -/
def fsWithTest : FS :=
  ⟨[("/home/user/.local/share/applications/Test.desktop", "[Desktop Entry]")], [], []⟩

/-! ## Claims C1, C2, C3: the Record Store operations

Every Record Store operation calls the nonexistent method
`get_applications_dir`; the resulting `AttributeError` is swallowed by the
`except Exception` handlers, so `create_shortcut` always returns `False`
without writing, `remove_shortcut` always returns `False` without deleting,
and `get_shortcut_details` always returns the empty dictionary.  The
following theorems evaluate the embedded code at the claims' failing
inputs. -/

/-- **C1** (code evaluation at the failing input): the record
(name `"Test"`, description `"A test"`, target `"https://example.com"`,
default opener, user scope) passes both validations, yet `create_shortcut`
returns `False` leaving the filesystem untouched and triggering no index
rebuild, and the subsequent `get_shortcut_details` returns the empty
dictionary instead of the record — the round-trip claim fails on every valid
record because `creator.py` line 53 calls `Config.get_applications_dir`,
which does not exist (`config.py` line 99 defines `get_application_dir`). -/
theorem create_get_details_roundtrip_broken :
    (validate_shortcut_name "Test").1 = true ∧
    validate_url (fsExists fs0) "https://example.com" = true ∧
    create_shortcut cfg0 fs0 "Test" "A test" "https://example.com" "xdg-open" "user" =
      (false, fs0, 0) ∧
    get_shortcut_details cfg0
      (create_shortcut cfg0 fs0 "Test" "A test" "https://example.com" "xdg-open" "user").2.1
      "Test" "user" = [] := by
  refine ⟨by decide, by decide, by decide, by decide⟩

/-- **C2** (code evaluation at the failing input): two successive
`create_shortcut` calls with the same name `"Test"` and the two different
valid targets leave **zero** shortcut files — not exactly one — and
`get_shortcut_details` afterwards is empty rather than reflecting the second
call's values, again because of the `get_applications_dir` attribute error. -/
theorem overwrite_semantics_broken :
    validate_url (fsExists fs0) "https://example.com" = true ∧
    validate_url (fsExists fs0) "https://example.org" = true ∧
    (create_shortcut cfg0
        (create_shortcut cfg0 fs0 "Test" "d" "https://example.com" "xdg-open" "user").2.1
        "Test" "d" "https://example.org" "xdg-open" "user").2.1.files = [] ∧
    get_shortcut_details cfg0
      (create_shortcut cfg0
        (create_shortcut cfg0 fs0 "Test" "d" "https://example.com" "xdg-open" "user").2.1
        "Test" "d" "https://example.org" "xdg-open" "user").2.1
      "Test" "user" = [] := by
  refine ⟨by decide, by decide, by decide, by decide⟩

/-- **C3** (code evaluation at the failing input): with the backing file for
`sanitize("Test")` present in the user scope directory, `remove_shortcut`
returns `False` and deletes nothing — the `AttributeError` raised before the
existence check (creator.py line 134) is swallowed at line 144 — so the
result is not `True` when a backing file existed, contrary to the claim. -/
theorem remove_shortcut_broken :
    fsExists fsWithTest
      ((mkConfig "/home/user").user_applications_dir ++ "/" ++
        (sanitize_filename "Test" ++ ".desktop")) = true ∧
    remove_shortcut cfg0 fsWithTest "Test" "user" = (false, fsWithTest, 0) := by
  refine ⟨by decide, by decide⟩

/-- **C8**: `create_shortcut` is atomic on validation failure: whenever the
name or the target fails validation, it returns a failure outcome with the
filesystem — files, directories, executable bits — completely unchanged and
no index rebuild triggered.  The validations (creator.py lines 40-47) run
before any filesystem operation. -/
theorem create_shortcut_validation_atomic (c : Config) (fs : FS)
    (name description url browser_command mode : String)
    (h : (validate_shortcut_name name).1 = false ∨
      validate_url (fsExists fs) url = false) :
    create_shortcut c fs name description url browser_command mode = (false, fs, 0) := by
  unfold create_shortcut
  by_cases hn : (validate_shortcut_name name).1 = false
  · rw [if_pos hn]
  · rw [if_neg hn]
    rcases h with h | h
    · exact absurd h hn
    · rw [if_pos h]

/-- Witness for `create_shortcut_validation_atomic`: the empty name fails
validation, and `create_shortcut` on it leaves the empty filesystem empty. -/
theorem create_shortcut_validation_atomic_witness :
    ((validate_shortcut_name "").1 = false ∨
      validate_url (fsExists fs0) "https://example.com" = false) ∧
    create_shortcut cfg0 fs0 "" "d" "https://example.com" "xdg-open" "user" =
      (false, fs0, 0) :=
  ⟨Or.inl (by decide),
   create_shortcut_validation_atomic cfg0 fs0 "" "d" "https://example.com" "xdg-open" "user"
     (Or.inl (by decide))⟩

end LazyLauncher
